import Mathlib

/-!
Shallow embedding of the versioned-entity job queue of the idetect
repository: the Version Store (`source/python/idetect/model.py`, class
`Article`) and the Worker loop (`source/python/idetect/worker.py`, class
`Worker`).

All version rows of all entity groups live in one table (`Store.rows`),
mirroring the single `article` table.  The store state additionally
tracks the next fresh primary key (`nextId`, the autoincrement sequence)
and a clock (`clock`) supplying the `updated` timestamp that the
database assigns via `server_default=func.now()` at insert time; the
clock advances at every insert, so later inserts get strictly larger
timestamps.

The worker in `worker.py` operates on an entity class `Analysis` whose
declaration is not part of the sources here; only its callers are.  Its
versioning operations (`create_new_version`, `get_latest_version`) are
those of `Article` in `model.py`, which the spec describes as the same
entity model.  Modelled from the spec: the payload columns `error_msg`
and `processing_time` that the worker writes (spec section 3, "domain
payload fields (url, title, error message, processing duration, etc.) —
opaque to the core, copied forward across versions") are carried as
fields of the one entity record `Article`.
-/

namespace Idetect

/-- Status strings from `model.py`, class `Status`. -/
def Status.NEW : String := "new"

def Status.SCRAPING : String := "scraping"

def Status.SCRAPED : String := "scraped"

def Status.SCRAPING_FAILED : String := "scraping failed"

/-- One version row of the `article` table (`model.py`, class `Article`).
`url_id` is the group key shared by all versions of one document;
`reports` and `content` stand for the relational attachments that
`create_new_version` copies forward. -/
structure Article where
  id : Nat
  url_id : String
  url : String
  status : String
  updated : Nat
  error_msg : Option String
  processing_time : Option Nat
  reports : List Nat
  content : Option Nat
deriving Repr, DecidableEq

/-- The backing store: the single table of all version rows, plus the
autoincrement id sequence and the timestamp clock. -/
structure Store where
  rows : List Article
  nextId : Nat
  clock : Nat
deriving Repr, DecidableEq

/-- Of two rows, the one with the larger `updated` (the first on a tie):
the head of an `ORDER BY updated DESC` result. -/
def laterOf (a b : Article) : Article :=
  if a.updated < b.updated then b else a

/-- First row of a list ordered by `updated` descending: the row
with the maximum `updated` timestamp. -/
def latestIn : List Article → Option Article
  | [] => none
  | a :: rest =>
    match latestIn rest with
    | none => some a
    | some b => some (laterOf a b)

/-- Embeds `Article.get_latest_version` (`model.py` lines 101-117) for a
given `url_id`: filter the table by group key, order by `updated`
descending, take the first row.  The `FOR UPDATE` lock only matters for
inter-process blocking and has no effect on the returned row. -/
def get_latest_version (s : Store) (url_id : String) : Option Article :=
  latestIn (s.rows.filter (fun a => a.url_id == url_id))

/-- Errors that `create_new_version` can raise: `NotLatestException`
(`model.py` lines 46-52), carrying `ours` (the stale version the caller
held) and `other` (the actual latest version); or the attribute error
hit when the group has no row at all (`latest.id` with `latest = None`). -/
inductive CnvError where
  | notLatest (ours other : Article)
  | attributeError
deriving Repr, DecidableEq

/-- The new row built by `create_new_version` (`model.py` lines 135-147):
the entity object itself with `id = None` (a fresh key on insert),
`updated = None` (the database clock on insert), the new status, and
every other column — group key, payload, attachments — kept. -/
def freshVersion (s : Store) (a : Article) (new_status : String) : Article :=
  { a with id := s.nextId, updated := s.clock, status := new_status }

/-- Committing an insert: the row is appended to the table, the id
sequence and the timestamp clock advance. -/
def insertRow (s : Store) (r : Article) : Store :=
  { rows := s.rows ++ [r], nextId := s.nextId + 1, clock := s.clock + 1 }

/-- Embeds `Article.create_new_version` (`model.py` lines 119-149): fetch
the latest version of the group under lock; if its id differs from this
entity's id, raise `NotLatestException(self, latest)` and insert nothing
(the `finally: session.rollback()` releases the lock; the error path
leaves the table unchanged); otherwise insert the new version row built
from this entity. -/
def create_new_version (s : Store) (self : Article) (new_status : String) :
    Except CnvError (Article × Store) :=
  match get_latest_version s self.url_id with
  | none => .error .attributeError
  | some latest =>
    if latest.id = self.id then
      let r := freshVersion s self new_status
      .ok (r, insertRow s r)
    else
      .error (.notLatest self latest)

/-- The store as left behind by a `create_new_version` call: changed only
on the success path. -/
def cnvStore (s : Store) (self : Article) (new_status : String) : Store :=
  match create_new_version s self new_status with
  | .ok (_, s1) => s1
  | .error _ => s

/-- Insertion of a brand-new entity row (a group's first version): the
database assigns the fresh id and the current timestamp. -/
def insertNew (s : Store) (a : Article) : Store :=
  insertRow s { a with id := s.nextId, updated := s.clock }

/-- Worker configuration (`worker.py`, `Worker.__init__`): the eligible
input status, the three transition statuses, and the processing
function, which either returns normally or raises an error described by
a string (`str(e)`). -/
structure WorkerCfg where
  status : String
  working_status : String
  success_status : String
  failure_status : String
  function : Article → Except String Unit

/-- Of two rows, the one with the smaller `updated` (the first on a tie):
the head of an `ORDER BY updated ASC` result. -/
def earlierOf (a b : Article) : Article :=
  if b.updated < a.updated then b else a

/-- First row of a list ordered by `updated` ascending: the row with
the minimum `updated` timestamp. -/
def oldestIn : List Article → Option Article
  | [] => none
  | a :: rest =>
    match oldestIn rest with
    | none => some a
    | some b => some (earlierOf a b)

/-- Embeds the claim query of `Worker.work` (`worker.py` lines 49-53):
`session.query(Analysis).with_for_update().filter(status == self.status)
.order_by(Analysis.updated).first()` — every row of the table whose
`status` equals the target status, ordered by `updated` ascending,
first row.  Note that the query ranges over all version rows, with no
restriction to latest versions. -/
def claimQuery (s : Store) (status : String) : Option Article :=
  oldestIn (s.rows.filter (fun a => a.status == status))

/-- Rendering of a raised `CnvError` as `str(e)`, as used when the
generic `except Exception` handler persists the message. -/
def cnvErrStr : CnvError → String
  | .notLatest _ _ => "Tried to update ours, but other was the latest"
  | .attributeError => "AttributeError"

/-- The worker's attribute assignments before a commit (`worker.py`
lines 70-71 and 78-79): set `error_msg` and `processing_time` on the
claimed entity. -/
def recordOutcome (a : Article) (em : Option String) (pt : Option Nat) : Article :=
  { a with error_msg := em, processing_time := pt }

/-- Outcome of one `Worker.work` call: a normal return of a boolean, or
an exception propagating out of the method. -/
inductive WorkOutcome where
  | ret (b : Bool)
  | exn (e : CnvError)
deriving Repr, DecidableEq

/-- Embeds `Worker.work` (`worker.py` lines 36-86).  The claim phase runs
the claim query; on no row it returns `False` with no store change.  On
a row it calls `create_new_version(working_status)`; the claim phase has
only a `finally: session.rollback()`, so a `NotLatestException` raised
there propagates out of `work`.  Then the processing function runs on
the claimed entity (which, after `create_new_version`, is the new
working version).  On normal return the worker clears `error_msg`, sets
`processing_time` to the elapsed time `delta`, and commits the success
status; on an error it sets `error_msg` to the error's description and
`processing_time`, and commits the failure status.  The `except
Exception` handler also catches a `NotLatestException` raised by the
success commit itself and then attempts the failure commit; if that
commit raises too, the exception propagates. -/
def work (cfg : WorkerCfg) (delta : Nat) (s : Store) : WorkOutcome × Store :=
  match claimQuery s cfg.status with
  | none => (.ret false, s)
  | some analysis =>
    match create_new_version s analysis cfg.working_status with
    | .error e => (.exn e, s)
    | .ok (claimed, s1) =>
      match cfg.function claimed with
      | .ok _ =>
        let a1 := recordOutcome claimed none (some delta)
        match create_new_version s1 a1 cfg.success_status with
        | .ok (_, s2) => (.ret true, s2)
        | .error e =>
          let a2 := recordOutcome a1 (some (cnvErrStr e)) (some delta)
          match create_new_version s1 a2 cfg.failure_status with
          | .ok (_, s3) => (.ret true, s3)
          | .error e2 => (.exn e2, s1)
      | .error msg =>
        let a1 := recordOutcome claimed (some msg) (some delta)
        match create_new_version s1 a1 cfg.failure_status with
        | .ok (_, s2) => (.ret true, s2)
        | .error e2 => (.exn e2, s1)

/-- Outcome of one `Worker.work_all` call: a normal return of the count,
an exception propagating out (losing the count), or recursion fuel
running out (never hit on the inputs considered here). -/
inductive BatchOutcome where
  | ret (count : Nat)
  | exn (e : CnvError)
  | fuelOut
deriving Repr, DecidableEq

/-- Embeds `Worker.work_all` (`worker.py` lines 88-93):
`count = 0; while self.work() and not self.terminated: count += 1;
return count`.  An exception raised by `work` propagates out of the
loop, and the count accumulated so far is lost.  The loop is written
with explicit fuel; `terminated` is the cooperative-termination flag. -/
def work_all (cfg : WorkerCfg) (delta : Nat) (terminated : Bool) :
    Nat → Store → Nat → BatchOutcome × Store
  | 0, s, _ => (.fuelOut, s)
  | fuel + 1, s, count =>
    match work cfg delta s with
    | (.ret false, s1) => (.ret count, s1)
    | (.ret true, s1) =>
      if terminated then (.ret count, s1)
      else work_all cfg delta terminated fuel s1 (count + 1)
    | (.exn e, s1) => (.exn e, s1)

/-- One pass of the `work_indefinitely` loop body (`worker.py` lines
100-105) as it affects the `sleep` variable: if the batch processed at
least one unit the interval resets to 1; otherwise (after sleeping) it
becomes `min(self.max_sleep, sleep * 2)`. -/
def work_indefinitely_step (max_sleep : Nat) (processed sleep : Nat) : Nat :=
  if 0 < processed then 1 else min max_sleep (sleep * 2)

/-- The value of the `sleep` variable after a sequence of batches with
the given processed counts, starting from the initial `sleep = 1`
(`worker.py` line 99). -/
def sleepTrace (max_sleep : Nat) (counts : List Nat) : Nat :=
  counts.foldl (fun sleep c => work_indefinitely_step max_sleep c sleep) 1

/-- Well-formedness of a store, as the database maintains it: every row's
primary key is below the id sequence and its timestamp is below the
clock, and distinct rows have distinct primary keys and distinct
timestamps. -/
def WF (s : Store) : Prop :=
  (∀ r ∈ s.rows, r.id < s.nextId ∧ r.updated < s.clock) ∧
  s.rows.Pairwise (fun a b => a.id ≠ b.id ∧ a.updated ≠ b.updated)

/-- Stores reachable from the empty table by inserting brand-new entities
and by successful `create_new_version` calls. -/
inductive Reach : Store → Prop where
  | empty : Reach ⟨[], 0, 0⟩
  | insert {s : Store} (a : Article) : Reach s → Reach (insertNew s a)
  | cnv {s : Store} {a a' : Article} {s' : Store} {st : String} :
      Reach s → create_new_version s a st = .ok (a', s') → Reach s'

instance decWF (s : Store) : Decidable (WF s) := by
  unfold WF
  infer_instance

/-- A concrete first version of one document group, as inserted with
status `new`. -/
def a0 : Article :=
  { id := 0, url_id := "d1", url := "u", status := Status.NEW, updated := 0,
    error_msg := none, processing_time := none, reports := [], content := none }

/-- A newer version of the same group, advanced to status `scraped`. -/
def staleV2 : Article :=
  { a0 with id := 1, status := Status.SCRAPED, updated := 1 }

/-- A store in which `a0` is a stale version (its group has moved on to
`staleV2`), while `a0` still carries status `new`. -/
def staleStore : Store := { rows := [a0, staleV2], nextId := 2, clock := 2 }

/-- A concrete scraping-stage worker whose processing function always
succeeds. -/
def cfgNew : WorkerCfg :=
  { status := Status.NEW, working_status := Status.SCRAPING,
    success_status := Status.SCRAPED, failure_status := Status.SCRAPING_FAILED,
    function := fun _ => .ok () }

/-- A store holding a single eligible unit: one group whose only (hence
latest) version has status `new`. -/
def queue1 : Store := { rows := [a0], nextId := 1, clock := 1 }

/-- The version row that `Worker.work` leaves as the latest of the group
after successfully processing the one unit of `queue1` with elapsed
time 0. -/
def queue1Final : Article :=
  { a0 with id := 2, status := Status.SCRAPED, updated := 2, processing_time := some 0 }

/-- The working version created by claiming `a0` out of `queue1`. -/
def claimed1 : Article := freshVersion queue1 a0 Status.SCRAPING

/-- The store `queue1` after the claim of `a0` committed. -/
def queue1b : Store := insertRow queue1 claimed1

/-- A worker configuration whose processing function always raises, with
`str(e) = "boom"`. -/
def cfgFail : WorkerCfg :=
  { cfgNew with function := fun _ => .error "boom" }

theorem latestIn_eq_none {l : List Article} (h : latestIn l = none) : l = [] := by
  cases l with
  | nil => rfl
  | cons a rest =>
    rw [latestIn] at h
    cases hrest : latestIn rest with
    | none => rw [hrest] at h; simp at h
    | some b => rw [hrest] at h; simp at h

theorem latestIn_mem_le {l : List Article} {m : Article} (h : latestIn l = some m) :
    m ∈ l ∧ ∀ x ∈ l, x.updated ≤ m.updated := by
  induction l generalizing m with
  | nil => simp [latestIn] at h
  | cons a rest ih =>
    rw [latestIn] at h
    cases hrest : latestIn rest with
    | none =>
      rw [hrest] at h
      simp at h
      have hnil := latestIn_eq_none hrest
      subst hnil
      subst h
      simp
    | some b =>
      rw [hrest] at h
      simp at h
      obtain ⟨hb, hball⟩ := ih hrest
      rw [laterOf] at h
      by_cases hlt : a.updated < b.updated
      · rw [if_pos hlt] at h
        subst h
        refine ⟨List.mem_cons_of_mem _ hb, ?_⟩
        intro x hx
        rcases List.mem_cons.mp hx with hxa | hxr
        · subst hxa; exact Nat.le_of_lt hlt
        · exact hball x hxr
      · rw [if_neg hlt] at h
        subst h
        refine ⟨List.mem_cons_self _ _, ?_⟩
        intro x hx
        rcases List.mem_cons.mp hx with hxa | hxr
        · subst hxa; exact Nat.le_refl _
        · exact Nat.le_trans (hball x hxr) (Nat.le_of_not_lt hlt)

theorem latestIn_append_max {l : List Article} {r : Article}
    (h : ∀ x ∈ l, x.updated < r.updated) : latestIn (l ++ [r]) = some r := by
  induction l with
  | nil => simp [latestIn]
  | cons a rest ih =>
    have ha : a.updated < r.updated := h a (List.mem_cons_self _ _)
    have hrest : latestIn (rest ++ [r]) = some r :=
      ih (fun x hx => h x (List.mem_cons_of_mem _ hx))
    rw [List.cons_append, latestIn, hrest]
    simp [laterOf, ha]

theorem get_latest_spec {s : Store} {g : String} {m : Article}
    (h : get_latest_version s g = some m) :
    m ∈ s.rows ∧ m.url_id = g ∧ ∀ r ∈ s.rows, r.url_id = g → r.updated ≤ m.updated := by
  rw [get_latest_version] at h
  obtain ⟨hmem, hle⟩ := latestIn_mem_le h
  rw [List.mem_filter] at hmem
  refine ⟨hmem.1, by simpa using hmem.2, ?_⟩
  intro r hr hrg
  exact hle r (List.mem_filter.mpr ⟨hr, by simpa using hrg⟩)

theorem get_latest_of_mem {s : Store} {g : String} {r0 : Article}
    (h0 : r0 ∈ s.rows) (hg : r0.url_id = g) :
    ∃ m, get_latest_version s g = some m := by
  cases h : get_latest_version s g with
  | some m => exact ⟨m, rfl⟩
  | none =>
    rw [get_latest_version] at h
    have hempty := latestIn_eq_none h
    have : r0 ∈ s.rows.filter (fun a => a.url_id == g) :=
      List.mem_filter.mpr ⟨h0, by simpa using hg⟩
    rw [hempty] at this
    simp at this

theorem get_latest_insert_self {s : Store} {r : Article} {g : String}
    (hwf : WF s) (hup : r.updated = s.clock) (hg : r.url_id = g) :
    get_latest_version (insertRow s r) g = some r := by
  rw [get_latest_version, insertRow]
  have hfil : (s.rows ++ [r]).filter (fun a => a.url_id == g) =
      s.rows.filter (fun a => a.url_id == g) ++ [r] := by
    rw [List.filter_append]
    simp [hg]
  rw [hfil]
  apply latestIn_append_max
  intro x hx
  have hxr := (List.mem_filter.mp hx).1
  have := (hwf.1 x hxr).2
  omega

theorem wf_insertRow {s : Store} {r : Article} (hwf : WF s)
    (hid : r.id = s.nextId) (hup : r.updated = s.clock) : WF (insertRow s r) := by
  obtain ⟨hbound, hpair⟩ := hwf
  constructor
  · intro x hx
    rw [insertRow] at hx
    simp only [List.mem_append, List.mem_singleton] at hx
    rcases hx with hx | hx
    · have := hbound x hx
      simp [insertRow]
      omega
    · subst hx
      simp [insertRow]
      omega
  · rw [insertRow]
    rw [List.pairwise_append]
    refine ⟨hpair, List.pairwise_singleton _ _, ?_⟩
    intro x hx y hy
    simp only [List.mem_singleton] at hy
    subst hy
    have := hbound x hx
    omega

theorem cnv_ok_inv {s : Store} {a a' : Article} {s' : Store} {st : String}
    (h : create_new_version s a st = .ok (a', s')) :
    ∃ latest, get_latest_version s a.url_id = some latest ∧ latest.id = a.id ∧
      a' = freshVersion s a st ∧ s' = insertRow s (freshVersion s a st) := by
  rw [create_new_version] at h
  cases hl : get_latest_version s a.url_id with
  | none => rw [hl] at h; simp at h
  | some latest =>
    rw [hl] at h
    simp only [] at h
    by_cases hid : latest.id = a.id
    · rw [if_pos hid] at h
      simp at h
      exact ⟨latest, rfl, hid, h.1.symm, h.2.symm⟩
    · rw [if_neg hid] at h
      simp at h

theorem cnv_ok_of_latest_id (st : String) {s : Store} {b latest : Article}
    (hl : get_latest_version s b.url_id = some latest) (hid : latest.id = b.id) :
    create_new_version s b st = .ok (freshVersion s b st, insertRow s (freshVersion s b st)) := by
  rw [create_new_version, hl]
  simp [hid]

theorem wf_cnv {s : Store} {a a' : Article} {s' : Store} {st : String}
    (hwf : WF s) (h : create_new_version s a st = .ok (a', s')) : WF s' := by
  obtain ⟨latest, _, _, _, hs'⟩ := cnv_ok_inv h
  subst hs'
  exact wf_insertRow hwf rfl rfl

theorem wf_insertNew {s : Store} {a : Article} (hwf : WF s) : WF (insertNew s a) :=
  wf_insertRow hwf rfl rfl

theorem reach_wf {s : Store} (h : Reach s) : WF s := by
  induction h with
  | empty => constructor <;> simp
  | insert a _ ih => exact wf_insertNew ih
  | cnv _ hok ih => exact wf_cnv ih hok

theorem wf_mem_ne {s : Store} (hwf : WF s) {x y : Article}
    (hx : x ∈ s.rows) (hy : y ∈ s.rows) (hne : x ≠ y) :
    x.id ≠ y.id ∧ x.updated ≠ y.updated := by
  have hsym : Symmetric (fun a b : Article => a.id ≠ b.id ∧ a.updated ≠ b.updated) := by
    intro a b hab
    exact ⟨fun e => hab.1 e.symm, fun e => hab.2 e.symm⟩
  exact List.Pairwise.forall hsym hwf.2 hx hy hne

theorem sleepTrace_replicate (max_sleep : Nat) (hmax : 1 ≤ max_sleep) (M : Nat) :
    sleepTrace max_sleep (List.replicate M 0) = min max_sleep (2 ^ M) := by
  induction M with
  | zero =>
    simp [sleepTrace]
    omega
  | succ M ih =>
    rw [List.replicate_succ']
    unfold sleepTrace at ih ⊢
    rw [List.foldl_append, ih, List.foldl_cons, List.foldl_nil, work_indefinitely_step]
    simp only [Nat.lt_irrefl, if_false]
    rw [pow_succ]
    generalize 2 ^ M = p
    omega

theorem extend_trans {s1 s2 s3 : Store}
    (h12 : ∃ t, s2.rows = s1.rows ++ t) (h23 : ∃ t, s3.rows = s2.rows ++ t) :
    ∃ t, s3.rows = s1.rows ++ t := by
  obtain ⟨t1, e1⟩ := h12
  obtain ⟨t2, e2⟩ := h23
  exact ⟨t1 ++ t2, by rw [e2, e1, List.append_assoc]⟩

theorem cnv_ok_rows {s : Store} {a a' : Article} {s' : Store} {st : String}
    (h : create_new_version s a st = .ok (a', s')) :
    ∃ tail, s'.rows = s.rows ++ tail := by
  obtain ⟨latest, _, _, _, hs'⟩ := cnv_ok_inv h
  exact ⟨[freshVersion s a st], by rw [hs']; rfl⟩

theorem cnvStore_rows (s : Store) (a : Article) (st : String) :
    ∃ tail, (cnvStore s a st).rows = s.rows ++ tail := by
  cases h : create_new_version s a st with
  | error e => exact ⟨[], by simp [cnvStore, h]⟩
  | ok p =>
    have h' : create_new_version s a st = .ok (p.1, p.2) := by
      rw [h]
    obtain ⟨tail, ht⟩ := cnv_ok_rows h'
    refine ⟨tail, ?_⟩
    have hst : cnvStore s a st = p.2 := by
      simp [cnvStore, h]
    rw [hst]
    exact ht

theorem work_rows (cfg : WorkerCfg) (delta : Nat) (s : Store) :
    ∃ tail, ((work cfg delta s).2).rows = s.rows ++ tail := by
  cases hq : claimQuery s cfg.status with
  | none => exact ⟨[], by simp [work, hq]⟩
  | some analysis =>
    cases h1 : create_new_version s analysis cfg.working_status with
    | error e => exact ⟨[], by simp [work, hq, h1]⟩
    | ok p =>
      obtain ⟨claimed, s1⟩ := p
      have e1 : ∃ t, s1.rows = s.rows ++ t := cnv_ok_rows h1
      cases hf : cfg.function claimed with
      | ok u =>
        cases h2 : create_new_version s1 (recordOutcome claimed none (some delta))
            cfg.success_status with
        | ok q =>
          obtain ⟨r2, s2⟩ := q
          have hw : (work cfg delta s).2 = s2 := by
            simp [work, hq, h1, hf, h2]
          rw [hw]
          exact extend_trans e1 (cnv_ok_rows h2)
        | error e2 =>
          cases h3 : create_new_version s1
              (recordOutcome (recordOutcome claimed none (some delta))
                (some (cnvErrStr e2)) (some delta)) cfg.failure_status with
          | ok q =>
            obtain ⟨r3, s3⟩ := q
            have hw : (work cfg delta s).2 = s3 := by
              simp [work, hq, h1, hf, h2, h3]
            rw [hw]
            exact extend_trans e1 (cnv_ok_rows h3)
          | error e3 =>
            have hw : (work cfg delta s).2 = s1 := by
              simp [work, hq, h1, hf, h2, h3]
            rw [hw]
            exact e1
      | error msg =>
        cases h2 : create_new_version s1 (recordOutcome claimed (some msg) (some delta))
            cfg.failure_status with
        | ok q =>
          obtain ⟨r2, s2⟩ := q
          have hw : (work cfg delta s).2 = s2 := by
            simp [work, hq, h1, hf, h2]
          rw [hw]
          exact extend_trans e1 (cnv_ok_rows h2)
        | error e2 =>
          have hw : (work cfg delta s).2 = s1 := by
            simp [work, hq, h1, hf, h2]
          rw [hw]
          exact e1

/-- C1: after any sequence of inserts and successful `create_new_version`
calls (any store reachable from the empty table), `get_latest_version`
on a group key with at least one version returns a version of that
group whose `updated` is maximal among all versions of the group, and
strictly above every other version of the group. -/
theorem latest_version_after_any_sequence (s : Store) (g : String) (r0 : Article)
    (hs : Reach s) (h0 : r0 ∈ s.rows) (hg : r0.url_id = g) :
    ∃ m, get_latest_version s g = some m ∧ m ∈ s.rows ∧ m.url_id = g ∧
      (∀ r ∈ s.rows, r.url_id = g → r.updated ≤ m.updated) ∧
      (∀ r ∈ s.rows, r.url_id = g → r ≠ m → r.updated < m.updated) := by
  have hwf := reach_wf hs
  obtain ⟨m, hm⟩ := get_latest_of_mem h0 hg
  obtain ⟨hmem, hmg, hle⟩ := get_latest_spec hm
  refine ⟨m, hm, hmem, hmg, hle, ?_⟩
  intro r hr hrg hne
  have hneu := (wf_mem_ne hwf hr hmem hne).2
  have := hle r hr hrg
  omega

theorem latest_version_after_any_sequence_witness :
    ∃ m, get_latest_version queue1 "d1" = some m ∧ m ∈ queue1.rows ∧ m.url_id = "d1" ∧
      (∀ r ∈ queue1.rows, r.url_id = "d1" → r.updated ≤ m.updated) ∧
      (∀ r ∈ queue1.rows, r.url_id = "d1" → r ≠ m → r.updated < m.updated) :=
  latest_version_after_any_sequence queue1 "d1" a0
    (by
      have h : insertNew ⟨[], 0, 0⟩ a0 = queue1 := by decide
      exact h ▸ Reach.insert a0 Reach.empty)
    (by decide) (by decide)

/-- C2: when a newer version of the group exists, `create_new_version`
on the stale entity fails with `NotLatestException` naming the stale
entity and the current latest version, and leaves the store unchanged:
no row is inserted and every existing row, the newer version included,
is untouched. -/
theorem stale_write_rejected (s : Store) (v1 v2 : Article) (st : String)
    (hwf : WF s) (h1 : v1 ∈ s.rows) (h2 : v2 ∈ s.rows)
    (hg : v2.url_id = v1.url_id) (hnew : v1.updated < v2.updated) :
    ∃ cur, create_new_version s v1 st = .error (.notLatest v1 cur) ∧
      cur ∈ s.rows ∧ cur.url_id = v1.url_id ∧ v2.updated ≤ cur.updated ∧
      cnvStore s v1 st = s := by
  obtain ⟨m, hm⟩ := get_latest_of_mem h2 hg
  obtain ⟨hmem, hmg, hle⟩ := get_latest_spec hm
  have hv2le : v2.updated ≤ m.updated := hle v2 h2 hg
  have hne : m ≠ v1 := by
    intro e
    subst e
    omega
  have hid : m.id ≠ v1.id := (wf_mem_ne hwf hmem h1 hne).1
  have herr : create_new_version s v1 st = .error (.notLatest v1 m) := by
    rw [create_new_version, hm]
    simp [hid]
  refine ⟨m, herr, hmem, hmg, hv2le, ?_⟩
  simp [cnvStore, herr]

theorem stale_write_rejected_witness :
    ∃ cur, create_new_version staleStore a0 Status.SCRAPING = .error (.notLatest a0 cur) ∧
      cur ∈ staleStore.rows ∧ cur.url_id = a0.url_id ∧ staleV2.updated ≤ cur.updated ∧
      cnvStore staleStore a0 Status.SCRAPING = staleStore :=
  stale_write_rejected staleStore a0 staleV2 Status.SCRAPING
    (by decide) (by decide) (by decide) (by decide) (by decide)

/-- C6: on an entity that is the latest version of its group, a
successful `create_new_version` appends exactly one new row, whose id
is the fresh next id (held by no existing row), whose `updated` is the
current clock (strictly above every existing row), whose status is the
new status, and which keeps the group key and the relational
attachments (`reports`, `content`) of the predecessor. -/
theorem create_new_version_success_shape (s : Store) (a : Article) (st : String)
    (hwf : WF s) (hlatest : get_latest_version s a.url_id = some a) :
    ∃ a' s', create_new_version s a st = .ok (a', s') ∧
      s'.rows = s.rows ++ [a'] ∧
      a'.id = s.nextId ∧ a'.id ∉ s.rows.map Article.id ∧
      a'.updated = s.clock ∧ (∀ r ∈ s.rows, r.updated < a'.updated) ∧
      a'.status = st ∧ a'.url_id = a.url_id ∧
      a'.reports = a.reports ∧ a'.content = a.content := by
  have hok := cnv_ok_of_latest_id st hlatest rfl
  refine ⟨freshVersion s a st, insertRow s (freshVersion s a st), hok,
    rfl, rfl, ?_, rfl, ?_, rfl, rfl, rfl, rfl⟩
  · intro hmem
    rw [List.mem_map] at hmem
    obtain ⟨r, hr, hrid⟩ := hmem
    have := (hwf.1 r hr).1
    simp [freshVersion] at hrid
    omega
  · intro r hr
    have := (hwf.1 r hr).2
    simpa [freshVersion] using this

theorem create_new_version_success_shape_witness :
    ∃ a' s', create_new_version queue1 a0 Status.SCRAPING = .ok (a', s') ∧
      s'.rows = queue1.rows ++ [a'] ∧
      a'.id = queue1.nextId ∧ a'.id ∉ queue1.rows.map Article.id ∧
      a'.updated = queue1.clock ∧ (∀ r ∈ queue1.rows, r.updated < a'.updated) ∧
      a'.status = Status.SCRAPING ∧ a'.url_id = a0.url_id ∧
      a'.reports = a0.reports ∧ a'.content = a0.content :=
  create_new_version_success_shape queue1 a0 Status.SCRAPING (by decide) (by decide)

/-- C7: history is append-only.  Every operation — a `create_new_version`
call (successful or failing) and a full `Worker.work` cycle (claim plus
commit) — leaves every existing version row in place and unchanged,
only appending new rows; no old row's status, timestamp or payload is
ever rewritten, so any row with a newer version in its group is
immutable from then on. -/
theorem history_is_append_only :
    (∀ s a st, ∃ tail, (cnvStore s a st).rows = s.rows ++ tail) ∧
    (∀ cfg delta s, ∃ tail, ((work cfg delta s).2).rows = s.rows ++ tail) :=
  ⟨cnvStore_rows, work_rows⟩

/-- C8: the backoff interval of `work_indefinitely`.  Starting from 1,
after M consecutive empty batches the sleep interval equals
`min(max_sleep, 2 ^ M)`, both from startup and right after any batch
that processed at least one unit (the interval resets to 1 on such a
batch and then doubles with the cap while batches stay empty). -/
theorem backoff_interval (max_sleep : Nat) (hmax : 1 ≤ max_sleep)
    (M : Nat) (pre : List Nat) (c : Nat) (hc : 0 < c) :
    sleepTrace max_sleep (List.replicate M 0) = min max_sleep (2 ^ M) ∧
    sleepTrace max_sleep (pre ++ c :: List.replicate M 0) = min max_sleep (2 ^ M) := by
  have h1 := sleepTrace_replicate max_sleep hmax M
  refine ⟨h1, ?_⟩
  unfold sleepTrace at h1 ⊢
  rw [List.foldl_append, List.foldl_cons, work_indefinitely_step, if_pos hc]
  exact h1

theorem backoff_interval_witness :
    sleepTrace 60 (List.replicate 3 0) = min 60 (2 ^ 3) ∧
    sleepTrace 60 ([0, 2] ++ 1 :: List.replicate 3 0) = min 60 (2 ^ 3) :=
  backoff_interval 60 (by decide) 3 [0, 2] 1 (by decide)

/-- C10: a successful `create_new_version` hands back (as the mutated
entity object) exactly the newly inserted row: its id is the fresh next
id, held by no pre-existing row, its `updated` is the current clock and
strictly newer than every pre-existing row, its status is the new
status, its group key is the predecessor's, and it is now the row that
`get_latest_version` returns for the group — so subsequent operations
on the same handle operate on the new version. -/
theorem new_version_becomes_latest (s : Store) (a a' : Article) (s' : Store) (st : String)
    (hwf : WF s) (hok : create_new_version s a st = .ok (a', s')) :
    a'.id = s.nextId ∧ a'.id ∉ s.rows.map Article.id ∧
    a'.updated = s.clock ∧ (∀ r ∈ s.rows, r.updated < a'.updated) ∧
    a'.status = st ∧ a'.url_id = a.url_id ∧
    get_latest_version s' a'.url_id = some a' := by
  obtain ⟨latest, hl, hid, ha', hs'⟩ := cnv_ok_inv hok
  subst ha'
  subst hs'
  refine ⟨rfl, ?_, rfl, ?_, rfl, rfl, ?_⟩
  · intro hmem
    rw [List.mem_map] at hmem
    obtain ⟨r, hr, hrid⟩ := hmem
    have := (hwf.1 r hr).1
    simp [freshVersion] at hrid
    omega
  · intro r hr
    have := (hwf.1 r hr).2
    simpa [freshVersion] using this
  · exact get_latest_insert_self hwf rfl rfl

theorem new_version_becomes_latest_witness :
    claimed1.id = queue1.nextId ∧ claimed1.id ∉ queue1.rows.map Article.id ∧
    claimed1.updated = queue1.clock ∧ (∀ r ∈ queue1.rows, r.updated < claimed1.updated) ∧
    claimed1.status = Status.SCRAPING ∧ claimed1.url_id = a0.url_id ∧
    get_latest_version queue1b claimed1.url_id = some claimed1 :=
  new_version_becomes_latest queue1 a0 claimed1 queue1b Status.SCRAPING (by decide) rfl

/-- C3 fails on the code: the claim query of `Worker.work` filters by
status over all version rows without restricting to latest versions.
In `staleStore` the only latest version of the group is `staleV2`,
whose status is not the target status, so by the claim the step should
find no eligible row and return no-work; instead the query selects the
stale row `a0` and `work` then raises `NotLatestException` out of the
claim phase. -/
theorem claim_query_selects_stale_row :
    claimQuery staleStore cfgNew.status = some a0 ∧
    get_latest_version staleStore a0.url_id = some staleV2 ∧
    staleV2 ≠ a0 ∧ staleV2.status ≠ cfgNew.status ∧
    work cfgNew 0 staleStore = (.exn (.notLatest a0 staleV2), staleStore) := by
  refine ⟨rfl, rfl, by decide, by decide, rfl⟩

/-- C4 fails on the code: the claim phase of `Worker.work` has only a
`finally` clause, so the `NotLatestException` raised when the claimed
row is stale is not caught, and `work` propagates the exception
instead of logging it and abandoning the unit. -/
theorem stale_error_propagates_from_work :
    (work cfgNew 0 staleStore).1 = .exn (.notLatest a0 staleV2) := rfl

/-- C9 fails on the code: on a queue holding exactly one eligible unit,
the first `work` call processes it (returning `True`), but the old row
keeps its eligible status, so the next iteration of `work_all` claims
that stale row and `create_new_version` raises `NotLatestException`,
which propagates out of `work_all`: the batch terminates by exception
and the count of processed units is lost instead of being returned.
On a store with no rows at all, `work_all` does return 0. -/
theorem work_all_raises_midway :
    (work_all cfgNew 0 false 5 ⟨[], 0, 0⟩ 0).1 = .ret 0 ∧
    (work cfgNew 0 queue1).1 = .ret true ∧
    (work_all cfgNew 0 false 5 queue1 0).1 = .exn (.notLatest a0 queue1Final) :=
  ⟨rfl, rfl, rfl⟩

/-- C5: once a unit has been successfully claimed (the claim query found
the entity and it was the latest version of its group), `Worker.work`
runs the processing function on the working version, always commits and
returns `True`: on an error it persists the error's description
verbatim as the new version's error message, records the elapsed time
and advances to the failure status; on normal return it clears the
error message, records the elapsed time and advances to the success
status.  In both cases the committed row is the new latest version of
the group, and no exception escapes `work`. -/
theorem work_commit_paths (cfg : WorkerCfg) (delta : Nat) (s : Store) (a : Article)
    (hwf : WF s) (hclaim : claimQuery s cfg.status = some a)
    (hlatest : get_latest_version s a.url_id = some a) :
    ∃ s2 fin, work cfg delta s = (.ret true, s2) ∧
      get_latest_version s2 a.url_id = some fin ∧
      fin.processing_time = some delta ∧
      ((∃ m, cfg.function (freshVersion s a cfg.working_status) = .error m ∧
          fin.status = cfg.failure_status ∧ fin.error_msg = some m) ∨
       (cfg.function (freshVersion s a cfg.working_status) = .ok () ∧
          fin.status = cfg.success_status ∧ fin.error_msg = none)) := by
  have h1 : create_new_version s a cfg.working_status =
      .ok (freshVersion s a cfg.working_status,
           insertRow s (freshVersion s a cfg.working_status)) :=
    cnv_ok_of_latest_id cfg.working_status hlatest rfl
  have hwf1 : WF (insertRow s (freshVersion s a cfg.working_status)) :=
    wf_insertRow hwf rfl rfl
  cases hf : cfg.function (freshVersion s a cfg.working_status) with
  | ok u =>
    cases u
    have hl1 : get_latest_version (insertRow s (freshVersion s a cfg.working_status))
        (recordOutcome (freshVersion s a cfg.working_status) none (some delta)).url_id =
        some (freshVersion s a cfg.working_status) :=
      get_latest_insert_self hwf rfl rfl
    have h2 := cnv_ok_of_latest_id cfg.success_status hl1 rfl
    have hw : work cfg delta s =
        (.ret true, insertRow (insertRow s (freshVersion s a cfg.working_status))
          (freshVersion (insertRow s (freshVersion s a cfg.working_status))
            (recordOutcome (freshVersion s a cfg.working_status) none (some delta))
            cfg.success_status)) := by
      simp [work, hclaim, h1, hf, h2]
    refine ⟨_, freshVersion (insertRow s (freshVersion s a cfg.working_status))
        (recordOutcome (freshVersion s a cfg.working_status) none (some delta))
        cfg.success_status,
      hw, get_latest_insert_self hwf1 rfl rfl, rfl, Or.inr ⟨rfl, rfl, rfl⟩⟩
  | error msg =>
    have hl1 : get_latest_version (insertRow s (freshVersion s a cfg.working_status))
        (recordOutcome (freshVersion s a cfg.working_status) (some msg) (some delta)).url_id =
        some (freshVersion s a cfg.working_status) :=
      get_latest_insert_self hwf rfl rfl
    have h2 := cnv_ok_of_latest_id cfg.failure_status hl1 rfl
    have hw : work cfg delta s =
        (.ret true, insertRow (insertRow s (freshVersion s a cfg.working_status))
          (freshVersion (insertRow s (freshVersion s a cfg.working_status))
            (recordOutcome (freshVersion s a cfg.working_status) (some msg) (some delta))
            cfg.failure_status)) := by
      simp [work, hclaim, h1, hf, h2]
    refine ⟨_, freshVersion (insertRow s (freshVersion s a cfg.working_status))
        (recordOutcome (freshVersion s a cfg.working_status) (some msg) (some delta))
        cfg.failure_status,
      hw, get_latest_insert_self hwf1 rfl rfl, rfl, Or.inl ⟨msg, rfl, rfl, rfl⟩⟩

theorem work_commit_paths_witness :
    ∃ s2 fin, work cfgFail 0 queue1 = (.ret true, s2) ∧
      get_latest_version s2 a0.url_id = some fin ∧
      fin.processing_time = some 0 ∧
      ((∃ m, cfgFail.function (freshVersion queue1 a0 cfgFail.working_status) = .error m ∧
          fin.status = cfgFail.failure_status ∧ fin.error_msg = some m) ∨
       (cfgFail.function (freshVersion queue1 a0 cfgFail.working_status) = .ok () ∧
          fin.status = cfgFail.success_status ∧ fin.error_msg = none)) :=
  work_commit_paths cfgFail 0 queue1 a0 (by decide) (by decide) (by decide)

end Idetect
